import Mathlib

/-!
Verification of the omnibor-rs core: the gitoid identifier-computation
engine and URL codec (`gitoid/src/gitoid.rs`) and the persistent gitbom
identifier collection (`gitbom/src/lib.rs`).

Strings are modelled as `List Char`, bytes as `Nat` (a `u8` is a `Nat`
together with a `< 256` bound where it matters).  Fallible Rust functions
returning `Result<T, Error>` become `Except Error T`.  The digest
algorithm itself is an external primitive: it is modelled as an abstract
function `List Nat → List Nat` whose output length always equals the
declared output size, mirroring the `GenericArray<u8, H::OutputSize>`
return type of `HashAlgorithm` implementations.
-/

namespace OmniBor

/-- Models the `HashAlgorithm` trait bound used throughout `gitoid.rs`:
a stable name (`H::NAME`), a declared output size in bytes
(`<H as OutputSizeUser>::output_size()`), and a digest over a byte stream.
The field `hash_len` records the type-level guarantee of
`GenericArray<u8, H::OutputSize>`: a finalized digest always has exactly
the declared output size. -/
structure HashAlg where
  NAME : List Char
  outputSize : Nat
  hashFn : List Nat → List Nat
  hash_len : ∀ input, (hashFn input).length = outputSize

/-- Models the `ObjectType` trait bound: a stable name (`O::NAME`). -/
structure ObjType where
  NAME : List Char
  deriving DecidableEq

/-- Models `GitOid<H, O>`: the hash value buffer.  The algorithm and
object type are phantom parameters in Rust; here they are passed to each
operation explicitly. -/
structure GitOid where
  value : List Nat
  deriving DecidableEq

/-- Models `url::Url` as far as the code observes it: a scheme and a path.
For an opaque-scheme URL such as `gitoid:blob:sha256:<hex>` built from
identifier characters, `Url::parse` yields scheme `gitoid` and keeps the
remainder verbatim as the path. -/
structure Url where
  scheme : List Char
  path : List Char
  deriving DecidableEq

/-- Models `hex::FromHexError` from the `hex` crate (the payload of
`InvalidHexCharacter` is elided; no claim observes it). -/
inductive FromHexError where
  | OddLength
  | InvalidStringLength
  | InvalidHexCharacter
  deriving DecidableEq

/-- Models the crate's `Error` enum, following the error taxonomy the
code constructs in `gitoid.rs` (the I/O variant is omitted: the pure
model has no I/O failures, and no claim exercises it). -/
inductive Error where
  | InvalidScheme (url : Url)
  | MissingObjectType (url : Url)
  | MissingHashAlgorithm (url : Url)
  | MissingHash (url : Url)
  | MismatchedObjectType (expected observed : List Char)
  | MismatchedHashAlgorithm (expected observed : List Char)
  | UnexpectedHashLength (expected observed : Nat)
  | BadLength (expected actual : Nat)
  | HexError (e : FromHexError)
  deriving DecidableEq

/-! ### Decimal rendering

Rust's `format!` renders a `usize` in decimal with no leading zeros.
`decimalDigitsCore` computes the little-endian decimal digits with
explicit fuel so that it is structurally recursive. -/

def decimalDigitsCore : Nat → Nat → List Nat
  | 0, _ => []
  | _ + 1, 0 => []
  | fuel + 1, n + 1 => ((n + 1) % 10) :: decimalDigitsCore fuel ((n + 1) / 10)

/-- Little-endian decimal digits of `n` (empty for `n = 0`). -/
def decimalDigitsLE (n : Nat) : List Nat :=
  decimalDigitsCore n n

/-- ASCII bytes of the decimal rendering of `n`, most significant digit
first, as produced by Rust's `format!` for an unsigned integer. -/
def decimalAsciiBytes (n : Nat) : List Nat :=
  if n = 0 then [48] else (decimalDigitsLE n).reverse.map (fun d => 48 + d)

/-- Reads a big-endian list of ASCII digit bytes back into a number
(used only in theorem statements, as the semantic inverse). -/
def asciiToNat (bytes : List Nat) : Nat :=
  bytes.foldl (fun acc b => 10 * acc + (b - 48)) 0

/-! ### Hashing (`gitoid_from_buffer`) -/

/-- Bytes of `format!("{} {}\0", O::NAME, expected_length)`: the header
fed to the digester before the content (`32` is ASCII space, `0` is NUL). -/
def headerBytes (O : ObjType) (expectedLength : Nat) : List Nat :=
  O.NAME.map Char.toNat ++ 32 :: decimalAsciiBytes expectedLength ++ [0]

/-- The full byte sequence fed to the digester by `gitoid_from_buffer`:
the header followed by every byte the reader yields. -/
def digestedBytes (O : ObjType) (expectedLength : Nat) (content : List Nat) : List Nat :=
  headerBytes O expectedLength ++ content

/-- Models `gitoid_from_buffer`.  The read loop feeds every chunk to the
digester and counts the bytes actually read; chunking does not affect the
digested byte sequence, so `content` stands for the bytes the reader
yields in order and `amount_read` is its length. -/
def gitoidFromBuffer (H : HashAlg) (O : ObjType) (content : List Nat)
    (expectedLength : Nat) : Except Error GitOid :=
  let amountRead := content.length
  let hash := H.hashFn (digestedBytes O expectedLength content)
  if amountRead ≠ expectedLength then
    .error (.BadLength expectedLength amountRead)
  else if hash.length ≠ H.outputSize then
    .error (.UnexpectedHashLength H.outputSize hash.length)
  else
    .ok ⟨hash⟩

/-- Models `GitOid::new_from_bytes`: the expected length is taken from
the in-memory buffer itself.  (Rust unwraps the result; the claim that
this can never panic is exactly the totality theorem below.) -/
def new_from_bytes (H : HashAlg) (O : ObjType) (content : List Nat) :
    Except Error GitOid :=
  gitoidFromBuffer H O content content.length

/-! ### Hex encoding and decoding -/

/-- Lowercase hex digit for `n < 16` (ASCII `0`-`9`, `a`-`f`). -/
def hexDigit (n : Nat) : Char :=
  if n < 10 then Char.ofNat (48 + n) else Char.ofNat (87 + n)

/-- Lowercase hex rendering of a byte sequence, as produced by the `hex`
crate when the hash is displayed into the URL. -/
def hexEncode (bytes : List Nat) : List Char :=
  bytes.flatMap (fun b => [hexDigit (b / 16), hexDigit (b % 16)])

/-- Value of a single hex character, accepting both cases, as in the
`hex` crate's `val`. -/
def hexVal (c : Char) : Option Nat :=
  if 48 ≤ c.toNat ∧ c.toNat ≤ 57 then some (c.toNat - 48)
  else if 97 ≤ c.toNat ∧ c.toNat ≤ 102 then some (c.toNat - 87)
  else if 65 ≤ c.toNat ∧ c.toNat ≤ 70 then some (c.toNat - 55)
  else none

/-- Pairwise decode loop of `hex::decode_to_slice`: each output byte is
`val(high) << 4 | val(low)`, failing on the first invalid character. -/
def decodePairs : List Char → Except FromHexError (List Nat)
  | [] => .ok []
  | [_] => .error .OddLength
  | c1 :: c2 :: rest =>
    match hexVal c1, hexVal c2 with
    | some hi, some lo => (decodePairs rest).map (fun t => (hi * 16 + lo) :: t)
    | _, _ => .error .InvalidHexCharacter

/-- Models `hex::decode_to_slice(data, out)` for an output buffer of
length `outLen`: an odd-length input is `OddLength`, an input whose
decoded size differs from the buffer size is `InvalidStringLength`, and
otherwise the buffer is filled pairwise. -/
def decode_to_slice (data : List Char) (outLen : Nat) :
    Except FromHexError (List Nat) :=
  if data.length % 2 ≠ 0 then .error .OddLength
  else if data.length / 2 ≠ outLen then .error .InvalidStringLength
  else decodePairs data

/-! ### URL serialization and parsing -/

/-- Models `GitOid::url`: `format!("gitoid:{}:{}:{}", O::NAME, H::NAME, hash)`
re-parsed by `Url::parse`, which for these identifier characters yields
scheme `gitoid` and the rest as the path. -/
def GitOid.url (H : HashAlg) (O : ObjType) (g : GitOid) : Url :=
  { scheme := "gitoid".toList
    path := O.NAME ++ (':' :: (H.NAME ++ (':' :: hexEncode g.value))) }

/-- Models `str::split(':')` on a `List Char`: splitting any string on a
separator yields at least one (possibly empty) segment. -/
def splitOnChar (sep : Char) : List Char → List (List Char)
  | [] => [[]]
  | c :: cs =>
    if c = sep then [] :: splitOnChar sep cs
    else
      match splitOnChar sep cs with
      | [] => [[c]]
      | r :: rs => (c :: r) :: rs

/-- Models `some_if_not_empty`. -/
def someIfNotEmpty (s : List Char) : Option (List Char) :=
  if s = [] then none else some s

/-- Models `self.segments.next().and_then(some_if_not_empty)` together
with the advanced iterator: the segment iterator consumes its head even
when the head is empty. -/
def takeSegment : List (List Char) → Option (List Char) × List (List Char)
  | [] => (none, [])
  | s :: rest => (someIfNotEmpty s, rest)

/-- Models `validate_url_scheme`. -/
def validate_url_scheme (url : Url) : Except Error Unit :=
  if url.scheme ≠ "gitoid".toList then .error (.InvalidScheme url)
  else .ok ()

/-- Models `validate_object_type`, returning the remaining segments. -/
def validate_object_type (O : ObjType) (url : Url)
    (segs : List (List Char)) : Except Error (List (List Char)) :=
  match takeSegment segs with
  | (none, _) => .error (.MissingObjectType url)
  | (some objectType, rest) =>
    if objectType ≠ O.NAME then
      .error (.MismatchedObjectType O.NAME objectType)
    else .ok rest

/-- Models `validate_hash_algorithm`, returning the remaining segments. -/
def validate_hash_algorithm (H : HashAlg) (url : Url)
    (segs : List (List Char)) : Except Error (List (List Char)) :=
  match takeSegment segs with
  | (none, _) => .error (.MissingHashAlgorithm url)
  | (some hashAlgorithm, rest) =>
    if hashAlgorithm ≠ H.NAME then
      .error (.MismatchedHashAlgorithm H.NAME hashAlgorithm)
    else .ok rest

/-- Models `parse_hash`: hex-decode the next segment into a buffer of
the expected algorithm's output size (`GenericArray::generate(|_| 0)`),
then the defensive length check on the filled buffer. -/
def parse_hash (H : HashAlg) (url : Url) (segs : List (List Char)) :
    Except Error (List Nat) :=
  match takeSegment segs with
  | (none, _) => .error (.MissingHash url)
  | (some hexStr, _) =>
    match decode_to_slice hexStr H.outputSize with
    | .error e => .error (.HexError e)
    | .ok value =>
      if value.length ≠ H.outputSize then
        .error (.UnexpectedHashLength H.outputSize value.length)
      else .ok value

/-- Models `GitOidUrlParser::parse` (also `TryFrom<Url>` and
`GitOid::new_from_url`): scheme, object type, algorithm, then hash, each
sequenced with `and_then` so the first failure is returned. -/
def gitOidUrlParse (H : HashAlg) (O : ObjType) (url : Url) :
    Except Error GitOid :=
  match validate_url_scheme url with
  | .error e => .error e
  | .ok _ =>
    match validate_object_type O url (splitOnChar ':' url.path) with
    | .error e => .error e
    | .ok segs1 =>
      match validate_hash_algorithm H url segs1 with
      | .error e => .error e
      | .ok segs2 =>
        match parse_hash H url segs2 with
        | .error e => .error e
        | .ok value => .ok ⟨value⟩

/-! ### Seekable streams (`stream_len`, `new_from_reader`) -/

/-- A seekable readable stream: its full contents and the current read
cursor. -/
structure SeekStream where
  pos : Nat
  data : List Nat
  deriving DecidableEq

/-- Models `stream.stream_position()` (one seek operation). -/
def stream_position (s : SeekStream) : Nat × SeekStream :=
  (s.pos, s)

/-- Models `stream.seek(SeekFrom::End(0))` (one seek operation). -/
def seek_end (s : SeekStream) : Nat × SeekStream :=
  (s.data.length, { s with pos := s.data.length })

/-- Models `stream.seek(SeekFrom::Start(p))` (one seek operation). -/
def seek_start (p : Nat) (s : SeekStream) : Nat × SeekStream :=
  (p, { s with pos := p })

/-- Models `stream_len`: returns the computed length, the resulting
stream state, and how many seek operations were performed. -/
def stream_len (s : SeekStream) : Nat × SeekStream × Nat :=
  let (oldPos, s1) := stream_position s
  let (len, s2) := seek_end s1
  if oldPos ≠ len then
    let (_, s3) := seek_start oldPos s2
    (len, s3, 3)
  else
    (len, s2, 2)

/-- Reading a stream to exhaustion yields the bytes after the cursor and
leaves the cursor at the end. -/
def read_to_end (s : SeekStream) : List Nat × SeekStream :=
  (s.data.drop s.pos, { s with pos := s.data.length })

/-- Models `GitOid::new_from_reader`: probe the total length with
`stream_len`, then hash whatever the reader yields from its current
position against that declared length. -/
def new_from_reader (H : HashAlg) (O : ObjType) (s : SeekStream) :
    Except Error GitOid :=
  let (len, s1, _) := stream_len s
  gitoidFromBuffer H O (read_to_end s1).1 len

/-! ### The persistent collection (`gitbom/src/lib.rs`) -/

/-- Modelled from the spec: the element type stored by `GitBom` is the
runtime-tagged `GitOid` of the gitoid crate version the gitbom crate
builds against, whose source file is not part of this tree.  Per the
spec's data model it carries an algorithm tag, an object-type tag, and
the digest bytes; only its decidable equality matters for membership. -/
structure Identifier where
  hashAlgorithm : List Char
  objectType : List Char
  digest : List Nat
  deriving DecidableEq

/-- Models `GitBom`: an immutable set of identifiers (`im::HashSet`). -/
structure GitBom where
  git_oids : Finset Identifier
  deriving DecidableEq

/-- Models `GitBom::new`. -/
def GitBom.new : GitBom :=
  ⟨∅⟩

/-- Models `GitBom::add_many`: clone the set, then `update` (insert) each
element, returning a new handle. -/
def GitBom.add_many (c : GitBom) (gitoids : List Identifier) : GitBom :=
  ⟨gitoids.foldl (fun updated g => insert g updated) c.git_oids⟩

/-- Models `GitBom::add`. -/
def GitBom.add (c : GitBom) (g : Identifier) : GitBom :=
  c.add_many [g]

/-- Models `GitBom::get_oids`: the membership view of a collection. -/
def GitBom.get_oids (c : GitBom) : Finset Identifier :=
  c.git_oids

/-! ### Supporting lemmas: splitting -/

theorem splitOnChar_not_mem {sep : Char} {a : List Char} (h : sep ∉ a) :
    splitOnChar sep a = [a] := by
  induction a with
  | nil => rfl
  | cons c cs ih =>
    have hc : c ≠ sep := fun hc => h (hc ▸ List.mem_cons_self c cs)
    have hcs : sep ∉ cs := fun hm => h (List.mem_cons_of_mem c hm)
    simp [splitOnChar, hc, ih hcs]

theorem splitOnChar_append {sep : Char} {a b : List Char} (h : sep ∉ a) :
    splitOnChar sep (a ++ sep :: b) = a :: splitOnChar sep b := by
  induction a with
  | nil => simp [splitOnChar]
  | cons c cs ih =>
    have hc : c ≠ sep := fun hc => h (hc ▸ List.mem_cons_self c cs)
    have hcs : sep ∉ cs := fun hm => h (List.mem_cons_of_mem c hm)
    simp [splitOnChar, hc, ih hcs]

/-! ### Supporting lemmas: hex -/

theorem hexVal_hexDigit {n : Nat} (h : n < 16) :
    hexVal (hexDigit n) = some n := by
  interval_cases n <;> decide

theorem hexDigit_ne_colon {n : Nat} (h : n < 16) : hexDigit n ≠ ':' := by
  interval_cases n <;> decide

theorem colon_not_mem_hexEncode {bytes : List Nat}
    (h : ∀ b ∈ bytes, b < 256) : ':' ∉ hexEncode bytes := by
  intro hmem
  simp only [hexEncode, List.mem_flatMap, List.mem_cons] at hmem
  obtain ⟨b, hb, hcase⟩ := hmem
  have hdiv : b / 16 < 16 := Nat.div_lt_of_lt_mul (h b hb)
  have hmod : b % 16 < 16 := Nat.mod_lt _ (by omega)
  rcases hcase with h1 | h1 | h1
  · exact hexDigit_ne_colon hdiv h1.symm
  · exact hexDigit_ne_colon hmod h1.symm
  · simp at h1

theorem hexEncode_length (bytes : List Nat) :
    (hexEncode bytes).length = 2 * bytes.length := by
  induction bytes with
  | nil => rfl
  | cons b t ih => simp [hexEncode, List.flatMap_cons] at ih ⊢; omega

theorem hexEncode_cons (b : Nat) (t : List Nat) :
    hexEncode (b :: t) = hexDigit (b / 16) :: hexDigit (b % 16) :: hexEncode t := by
  simp [hexEncode, List.flatMap_cons]

theorem decodePairs_hexEncode {bytes : List Nat}
    (h : ∀ b ∈ bytes, b < 256) : decodePairs (hexEncode bytes) = .ok bytes := by
  induction bytes with
  | nil => rfl
  | cons b t ih =>
    have hb : b < 256 := h b (List.mem_cons_self b t)
    have ht : ∀ x ∈ t, x < 256 := fun x hx => h x (List.mem_cons_of_mem b hx)
    have hdiv : b / 16 < 16 := Nat.div_lt_of_lt_mul hb
    have hmod : b % 16 < 16 := Nat.mod_lt _ (by omega)
    have hval : b / 16 * 16 + b % 16 = b := by
      have := Nat.div_add_mod b 16
      omega
    rw [hexEncode_cons]
    simp only [decodePairs, hexVal_hexDigit hdiv, hexVal_hexDigit hmod, ih ht]
    simp [Except.map, hval]

theorem decode_to_slice_hexEncode {bytes : List Nat}
    (h : ∀ b ∈ bytes, b < 256) :
    decode_to_slice (hexEncode bytes) bytes.length = .ok bytes := by
  simp [decode_to_slice, hexEncode_length, Nat.mul_mod_right,
    Nat.mul_div_cancel_left _ (by omega : 0 < 2), decodePairs_hexEncode h]

theorem decodePairs_ok_length {data : List Char} {v : List Nat}
    (h : decodePairs data = .ok v) : 2 * v.length = data.length := by
  induction data using decodePairs.induct generalizing v with
  | case1 =>
    simp [decodePairs] at h
    subst h; rfl
  | case2 c =>
    simp [decodePairs] at h
  | case3 c1 c2 rest hi lo h1 h2 ih =>
    simp only [decodePairs, h1, h2] at h
    cases hrest : decodePairs rest with
    | error e => rw [hrest] at h; simp [Except.map] at h
    | ok t =>
      rw [hrest] at h
      simp [Except.map] at h
      have := ih hrest
      subst h
      simp; omega
  | case4 c1 c2 rest h12 =>
    simp only [decodePairs] at h
    simp at h

theorem decodePairs_invalid_char {data : List Char}
    (heven : data.length % 2 = 0) (hc : ∃ c ∈ data, hexVal c = none) :
    decodePairs data = .error .InvalidHexCharacter := by
  induction data using decodePairs.induct with
  | case1 => simp at hc
  | case2 c => simp at heven
  | case3 c1 c2 rest hi lo h1 h2 ih =>
    have hrest : decodePairs rest = .error .InvalidHexCharacter := by
      apply ih
      · simp only [List.length_cons] at heven
        omega
      · obtain ⟨c, hcmem, hcval⟩ := hc
        rcases List.mem_cons.mp hcmem with heq | hcmem2
        · rw [heq] at hcval
          rw [hcval] at h2
          cases h2
        · rcases List.mem_cons.mp hcmem2 with heq | hcmem3
          · rw [heq] at hcval
            rw [hcval] at h1
            cases h1
          · exact ⟨c, hcmem3, hcval⟩
    simp only [decodePairs, h1, h2, hrest]
    rfl
  | case4 c1 c2 rest h12 =>
    cases hv1 : hexVal c1 with
    | none => simp [decodePairs, hv1]
    | some hi =>
      cases hv2 : hexVal c2 with
      | none => simp [decodePairs, hv1, hv2]
      | some lo => exact (h12 hi lo hv1 hv2).elim

theorem decode_to_slice_ok_length {data : List Char} {outLen : Nat}
    {v : List Nat} (h : decode_to_slice data outLen = .ok v) :
    v.length = outLen := by
  simp only [decode_to_slice] at h
  split at h
  · simp at h
  · split at h
    · simp at h
    · have h2 := decodePairs_ok_length h
      omega

/-! ### Supporting lemmas: decimal rendering -/

theorem decimalDigitsCore_eq_digits :
    ∀ fuel n, n ≤ fuel → decimalDigitsCore fuel n = Nat.digits 10 n := by
  intro fuel
  induction fuel with
  | zero =>
    intro n hn
    interval_cases n
    simp [decimalDigitsCore]
  | succ f ih =>
    intro n hn
    match n with
    | 0 => simp [decimalDigitsCore]
    | m + 1 =>
      have hdiv : (m + 1) / 10 < m + 1 := Nat.div_lt_self (Nat.succ_pos m) (by norm_num)
      rw [show decimalDigitsCore (f + 1) (m + 1)
            = ((m + 1) % 10) :: decimalDigitsCore f ((m + 1) / 10) from rfl,
        Nat.digits_def' (by norm_num : (1 : ℕ) < 10) (Nat.succ_pos m)]
      congr 1
      exact ih _ (by omega)

theorem decimalDigitsLE_eq_digits (n : Nat) :
    decimalDigitsLE n = Nat.digits 10 n :=
  decimalDigitsCore_eq_digits n n le_rfl

theorem foldl_reverse_ofDigits (l : List Nat) (acc : Nat) :
    l.reverse.foldl (fun a d => 10 * a + d) acc =
      acc * 10 ^ l.length + Nat.ofDigits 10 l := by
  induction l generalizing acc with
  | nil => simp [Nat.ofDigits]
  | cons d t ih =>
    simp only [List.reverse_cons, List.foldl_append, List.foldl_cons,
      List.foldl_nil, ih, Nat.ofDigits_cons, List.length_cons]
    ring

theorem asciiToNat_decimalAsciiBytes (n : Nat) :
    asciiToNat (decimalAsciiBytes n) = n := by
  by_cases h : n = 0
  · subst h; rfl
  · simp only [decimalAsciiBytes, if_neg h, asciiToNat, List.foldl_map,
      Nat.add_sub_cancel_left]
    rw [foldl_reverse_ofDigits, decimalDigitsLE_eq_digits]
    simp [Nat.ofDigits_digits]

theorem decimalAsciiBytes_bounds {n b : Nat} (hb : b ∈ decimalAsciiBytes n) :
    48 ≤ b ∧ b < 58 := by
  by_cases h : n = 0
  · subst h
    simp [decimalAsciiBytes] at hb
    omega
  · simp only [decimalAsciiBytes, if_neg h, List.mem_map,
      List.mem_reverse] at hb
    obtain ⟨d, hd, rfl⟩ := hb
    rw [decimalDigitsLE_eq_digits] at hd
    have := Nat.digits_lt_base (by norm_num) hd
    omega

theorem decimalAsciiBytes_ne_nil (n : Nat) : decimalAsciiBytes n ≠ [] := by
  by_cases h : n = 0
  · subst h; simp [decimalAsciiBytes]
  · simp [decimalAsciiBytes, if_neg h, decimalDigitsLE_eq_digits,
      Nat.digits_ne_nil_iff_ne_zero, h]

theorem decimalAsciiBytes_head {n : Nat}
    (h : (decimalAsciiBytes n).head? = some 48) : n = 0 := by
  by_contra hn
  rw [decimalAsciiBytes, if_neg hn] at h
  rw [List.head?_map, List.head?_reverse, decimalDigitsLE_eq_digits] at h
  have hne : Nat.digits 10 n ≠ [] := Nat.digits_ne_nil_iff_ne_zero.mpr hn
  rw [List.getLast?_eq_getLast_of_ne_nil hne] at h
  have hlast := Nat.getLast_digit_ne_zero 10 hn
  simp only [Option.map_some'] at h
  have : 48 + (Nat.digits 10 n).getLast hne = 48 := by
    exact Option.some.inj h
  omega

/-! ### Concrete capabilities and values for witnesses -/

/-- A concrete object-type capability named `blob`. -/
def blobType : ObjType :=
  ⟨"blob".toList⟩

/-- A concrete algorithm capability with a 2-byte output.  The digest
function is an arbitrary stand-in: the spec treats hash algorithm
implementations as external primitives, and no claim under test depends
on actual digest values. -/
def tinyAlg : HashAlg where
  NAME := "tiny".toList
  outputSize := 2
  hashFn := fun _ => [0, 0]
  hash_len := fun _ => rfl

/-- A concrete algorithm capability with the name and output size of
SHA-256; likewise with a stand-in digest function. -/
def sha256Alg : HashAlg where
  NAME := "sha256".toList
  outputSize := 32
  hashFn := fun _ => List.replicate 32 0
  hash_len := fun _ => List.length_replicate 32 0

/-- A concrete identifier value. -/
def idA : Identifier :=
  ⟨"sha256".toList, "blob".toList, [1]⟩

/-- A second, distinct concrete identifier value. -/
def idB : Identifier :=
  ⟨"sha256".toList, "blob".toList, [2]⟩

/-- A one-element collection. -/
def bomA : GitBom :=
  GitBom.new.add idA

/-! ### Shared helper lemmas about the hashing engine -/

theorem gitoidFromBuffer_ok (H : HashAlg) (O : ObjType) (content : List Nat) :
    gitoidFromBuffer H O content content.length =
      .ok ⟨H.hashFn (digestedBytes O content.length content)⟩ := by
  simp [gitoidFromBuffer, H.hash_len]

theorem gitoidFromBuffer_mismatch (H : HashAlg) (O : ObjType)
    {content : List Nat} {L : Nat} (h : content.length ≠ L) :
    gitoidFromBuffer H O content L = .error (.BadLength L content.length) := by
  simp [gitoidFromBuffer, h]

theorem gitbom_add_get_oids (c : GitBom) (x : Identifier) :
    (c.add x).get_oids = insert x c.get_oids := by
  simp [GitBom.add, GitBom.add_many, GitBom.get_oids]

theorem takeSegment_nil : takeSegment ([] : List (List Char)) = (none, []) :=
  rfl

theorem takeSegment_cons (s : List Char) (rest : List (List Char)) :
    takeSegment (s :: rest) = (someIfNotEmpty s, rest) :=
  rfl

theorem stream_len_eq (s : SeekStream) :
    stream_len s =
      (s.data.length, s, if s.pos = s.data.length then 2 else 3) := by
  cases s with
  | mk pos data =>
    by_cases h : pos = data.length
    · subst h
      simp [stream_len, stream_position, seek_end, seek_start]
    · simp [stream_len, stream_position, seek_end, seek_start, h]

/-! ### Claim theorems -/

/-- C2: for every content of length `n` and every algorithm/object-type
pair, the byte sequence fed to the digest is exactly the object-type
name, one ASCII space (32), the decimal representation of `n` with no
leading zeros, one NUL byte (0), followed immediately by the `n` raw
content bytes, in that order. -/
theorem hashing_wire_format (H : HashAlg) (O : ObjType) (content : List Nat) :
    ∃ decBytes : List Nat,
      gitoidFromBuffer H O content content.length =
        .ok ⟨H.hashFn
          (O.NAME.map Char.toNat ++ 32 :: decBytes ++ 0 :: content)⟩ ∧
      decBytes ≠ [] ∧
      (∀ b ∈ decBytes, 48 ≤ b ∧ b < 58) ∧
      asciiToNat decBytes = content.length ∧
      (decBytes.head? = some 48 → content.length = 0) := by
  refine ⟨decimalAsciiBytes content.length, ?_, decimalAsciiBytes_ne_nil _,
    fun b hb => decimalAsciiBytes_bounds hb, asciiToNat_decimalAsciiBytes _,
    fun h => decimalAsciiBytes_head h⟩
  rw [gitoidFromBuffer_ok]
  congr 2
  simp [digestedBytes, headerBytes, List.append_assoc]

/-- C3: hashing a stream whose declared length is `L` but which actually
yields `content.length = L' ≠ L` bytes returns exactly
`BadLength{expected := L, actual := L'}`, never an Identifier. -/
theorem length_integrity (H : HashAlg) (O : ObjType) (content : List Nat)
    (L : Nat) (h : content.length ≠ L) :
    gitoidFromBuffer H O content L = .error (.BadLength L content.length) :=
  gitoidFromBuffer_mismatch H O h

/-- Witness for C3 at a concrete stream: declared length 5, actual 3. -/
theorem length_integrity_witness :
    gitoidFromBuffer tinyAlg blobType [1, 2, 3] 5 =
      .error (.BadLength 5 3) :=
  length_integrity tinyAlg blobType [1, 2, 3] 5 (by decide)

/-- C6: `new_from_bytes` never fails: with the expected length taken
from the in-memory buffer itself, every error branch of
`gitoid_from_buffer` is unreachable and an Identifier is produced. -/
theorem from_bytes_total (H : HashAlg) (O : ObjType) (content : List Nat) :
    ∃ g : GitOid, new_from_bytes H O content = .ok g :=
  ⟨_, gitoidFromBuffer_ok H O content⟩

/-- C7: persistence of old versions: adding `x` to `c1` yields a new
collection holding exactly the old members plus `x`; every prior member
of `c1` is still a member of the new version, and when `x` was not in
`c1`, removing `x` from the new version gives back precisely `c1`'s
membership — the old handle's membership is unchanged. -/
theorem gitbom_persistence (c1 : GitBom) (x y : Identifier)
    (hy : y ∈ c1.get_oids) (hx : x ∉ c1.get_oids) :
    y ∈ (c1.add x).get_oids ∧
      (c1.add x).get_oids = insert x c1.get_oids ∧
      ((c1.add x).get_oids).erase x = c1.get_oids := by
  refine ⟨?_, gitbom_add_get_oids c1 x, ?_⟩
  · rw [gitbom_add_get_oids]
    exact Finset.mem_insert_of_mem hy
  · rw [gitbom_add_get_oids]
    exact Finset.erase_insert hx

/-- Witness for C7 at a concrete one-element collection. -/
theorem gitbom_persistence_witness :
    idA ∈ (bomA.add idB).get_oids ∧
      (bomA.add idB).get_oids = insert idB bomA.get_oids ∧
      ((bomA.add idB).get_oids).erase idB = bomA.get_oids :=
  gitbom_persistence bomA idB idA (by decide) (by decide)

/-- C8: set idempotence: adding `x` twice yields the same membership as
adding it once, and adding an already-present identifier yields a
collection whose membership equals the original's. -/
theorem gitbom_set_idempotence (c : GitBom) (x : Identifier) :
    ((c.add x).add x).get_oids = (c.add x).get_oids ∧
      (x ∈ c.get_oids → (c.add x).get_oids = c.get_oids) := by
  constructor
  · simp [gitbom_add_get_oids, Finset.insert_idem]
  · intro hx
    rw [gitbom_add_get_oids]
    exact Finset.insert_eq_self.mpr hx

/-- Witness for C8 at a concrete collection already containing `idA`. -/
theorem gitbom_set_idempotence_witness :
    ((bomA.add idA).add idA).get_oids = (bomA.add idA).get_oids ∧
      (bomA.add idA).get_oids = bomA.get_oids :=
  ⟨(gitbom_set_idempotence bomA idA).1,
    (gitbom_set_idempotence bomA idA).2 (by decide)⟩

/-- C9: stream cursor frame: `stream_len` reports the end position as
the length, restores the stream to its original state, and performs only
two seek operations (skipping the restoring seek) when the original
position already equals the end position, three otherwise. -/
theorem stream_len_frame (s : SeekStream) :
    (stream_len s).1 = s.data.length ∧
      (stream_len s).2.1 = s ∧
      (s.pos = s.data.length → (stream_len s).2.2 = 2) ∧
      (s.pos ≠ s.data.length → (stream_len s).2.2 = 3) := by
  rw [stream_len_eq]
  exact ⟨rfl, rfl, fun h => by simp [h], fun h => by simp [h]⟩

/-- Witness for C9: a stream at its end seeks twice; a stream at the
start seeks three times and is restored. -/
theorem stream_len_frame_witness :
    (stream_len ⟨2, [5, 6]⟩).2.2 = 2 ∧
      (stream_len ⟨0, [5, 6]⟩).2.2 = 3 ∧
      (stream_len ⟨0, [5, 6]⟩).2.1 = ⟨0, [5, 6]⟩ :=
  ⟨(stream_len_frame ⟨2, [5, 6]⟩).2.2.1 (by decide),
    (stream_len_frame ⟨0, [5, 6]⟩).2.2.2 (by decide),
    (stream_len_frame ⟨0, [5, 6]⟩).2.1⟩

/-- C10: a reader at nonzero position `p` over a stream of total length
`L` declares length `L` in the hash header but only yields the `L - p`
bytes after the cursor, so construction fails with
`BadLength{expected := L, actual := L - p}`. -/
theorem reader_nonzero_position (H : HashAlg) (O : ObjType) (s : SeekStream)
    (hp : 0 < s.pos) (hle : s.pos ≤ s.data.length) :
    new_from_reader H O s =
      .error (.BadLength s.data.length (s.data.length - s.pos)) := by
  have hlen : (s.data.drop s.pos).length = s.data.length - s.pos := by
    simp
  simp only [new_from_reader, stream_len_eq, read_to_end]
  rw [gitoidFromBuffer_mismatch H O (by rw [hlen]; omega), hlen]

/-- Witness for C10: a two-byte stream read from position 1 fails with
`BadLength{expected := 2, actual := 1}`. -/
theorem reader_nonzero_position_witness :
    new_from_reader tinyAlg blobType ⟨1, [9, 9]⟩ =
      .error (.BadLength 2 1) :=
  reader_nonzero_position tinyAlg blobType ⟨1, [9, 9]⟩ (by decide) (by decide)

/-- C4: parse validation order with first-failure-wins: scheme first
(`InvalidScheme`), then the first path segment as object type (absent or
empty segment is `MissingObjectType`, a present but unexpected name is
`MismatchedObjectType`), then the next segment as algorithm
(`MissingHashAlgorithm` / `MismatchedHashAlgorithm`), then the next
segment as digest (absent or empty is `MissingHash`); the first failing
check determines the returned error. -/
theorem parse_validation_order (H : HashAlg) (O : ObjType) (url : Url) :
    (url.scheme ≠ "gitoid".toList →
      gitOidUrlParse H O url = .error (.InvalidScheme url)) ∧
    (∀ rest, url.scheme = "gitoid".toList →
      splitOnChar ':' url.path = [] :: rest →
      gitOidUrlParse H O url = .error (.MissingObjectType url)) ∧
    (∀ s0 rest, url.scheme = "gitoid".toList →
      splitOnChar ':' url.path = s0 :: rest → s0 ≠ [] → s0 ≠ O.NAME →
      gitOidUrlParse H O url = .error (.MismatchedObjectType O.NAME s0)) ∧
    (∀ rest r, url.scheme = "gitoid".toList → O.NAME ≠ [] →
      splitOnChar ':' url.path = O.NAME :: rest →
      takeSegment rest = (none, r) →
      gitOidUrlParse H O url = .error (.MissingHashAlgorithm url)) ∧
    (∀ rest r a, url.scheme = "gitoid".toList → O.NAME ≠ [] →
      splitOnChar ':' url.path = O.NAME :: rest →
      takeSegment rest = (some a, r) → a ≠ H.NAME →
      gitOidUrlParse H O url = .error (.MismatchedHashAlgorithm H.NAME a)) ∧
    (∀ rest r r2, url.scheme = "gitoid".toList → O.NAME ≠ [] →
      splitOnChar ':' url.path = O.NAME :: rest →
      takeSegment rest = (some H.NAME, r) → takeSegment r = (none, r2) →
      gitOidUrlParse H O url = .error (.MissingHash url)) := by
  refine ⟨?_, ?_, ?_, ?_, ?_, ?_⟩
  · intro h
    have h2 : ¬(url.scheme = ['g', 'i', 't', 'o', 'i', 'd']) := h
    simp [gitOidUrlParse, validate_url_scheme, h2]
  · intro rest hs hsplit
    simp [gitOidUrlParse, validate_url_scheme, hs, hsplit,
      validate_object_type, takeSegment_cons, someIfNotEmpty]
  · intro s0 rest hs hsplit h0 hne
    simp [gitOidUrlParse, validate_url_scheme, hs, hsplit,
      validate_object_type, takeSegment_cons, someIfNotEmpty, h0, hne]
  · intro rest r hs hON hsplit htk
    simp [gitOidUrlParse, validate_url_scheme, hs, hsplit,
      validate_object_type, takeSegment_cons, someIfNotEmpty, hON,
      validate_hash_algorithm, htk]
  · intro rest r a hs hON hsplit htk ha
    simp [gitOidUrlParse, validate_url_scheme, hs, hsplit,
      validate_object_type, takeSegment_cons, someIfNotEmpty, hON,
      validate_hash_algorithm, htk, ha]
  · intro rest r r2 hs hON hsplit htk htk2
    simp [gitOidUrlParse, validate_url_scheme, hs, hsplit,
      validate_object_type, takeSegment_cons, someIfNotEmpty, hON,
      validate_hash_algorithm, htk, parse_hash, htk2]

/-- Witness for C4: each of the six early-failure stages hit at a
concrete URL (expecting object type `blob` and algorithm `sha256`). -/
theorem parse_validation_order_witness :
    gitOidUrlParse sha256Alg blobType ⟨"https".toList, "x".toList⟩ =
      .error (.InvalidScheme ⟨"https".toList, "x".toList⟩) ∧
    gitOidUrlParse sha256Alg blobType ⟨"gitoid".toList, []⟩ =
      .error (.MissingObjectType ⟨"gitoid".toList, []⟩) ∧
    gitOidUrlParse sha256Alg blobType ⟨"gitoid".toList, "tree".toList⟩ =
      .error (.MismatchedObjectType "blob".toList "tree".toList) ∧
    gitOidUrlParse sha256Alg blobType ⟨"gitoid".toList, "blob".toList⟩ =
      .error (.MissingHashAlgorithm ⟨"gitoid".toList, "blob".toList⟩) ∧
    gitOidUrlParse sha256Alg blobType ⟨"gitoid".toList, "blob:sha1".toList⟩ =
      .error (.MismatchedHashAlgorithm "sha256".toList "sha1".toList) ∧
    gitOidUrlParse sha256Alg blobType ⟨"gitoid".toList, "blob:sha256".toList⟩ =
      .error (.MissingHash ⟨"gitoid".toList, "blob:sha256".toList⟩) :=
  ⟨(parse_validation_order sha256Alg blobType _).1 (by decide),
    (parse_validation_order sha256Alg blobType _).2.1 [] (by decide) (by decide),
    (parse_validation_order sha256Alg blobType _).2.2.1 "tree".toList []
      (by decide) (by decide) (by decide) (by decide),
    (parse_validation_order sha256Alg blobType _).2.2.2.1 [] [] (by decide)
      (by decide) (by decide) (by decide),
    (parse_validation_order sha256Alg blobType _).2.2.2.2.1 ["sha1".toList] []
      "sha1".toList (by decide) (by decide) (by decide) (by decide) (by decide),
    (parse_validation_order sha256Alg blobType _).2.2.2.2.2 ["sha256".toList]
      [] [] (by decide) (by decide) (by decide) (by decide) (by decide)⟩

/-- A URL whose digest segment is 62 valid hex characters: even length,
all hex, but decoding to 31 bytes where SHA-256 declares 32. -/
def badHexUrl : Url :=
  ⟨"gitoid".toList, "blob:sha256:".toList ++ List.replicate 62 'a'⟩

/-- Counterexample to C5 as stated: a digest segment that would decode
to a byte length different from the expected output size does NOT fail
with `UnexpectedHashLength{expected := 32, observed := 31}` — it fails
with the hex-decode error `InvalidStringLength`, because
`hex::decode_to_slice` checks the decoded size against the fixed buffer
itself. -/
theorem hash_length_error_cex :
    gitOidUrlParse sha256Alg blobType badHexUrl =
      .error (.HexError .InvalidStringLength) ∧
    Error.HexError FromHexError.InvalidStringLength ≠
      Error.UnexpectedHashLength 32 31 := by
  constructor
  · rfl
  · decide

/-- C5 (amended): for a URL that passes scheme, object-type, and
algorithm validation, a malformed digest segment surfaces as a
hex-decode error: odd length is `OddLength`; an even length whose
decoded size differs from the expected algorithm's output size is
`InvalidStringLength`; an even length of the correct decoded size
containing a non-hex character is `InvalidHexCharacter`; and the
`UnexpectedHashLength` branch after decoding is unreachable (a
successful decode always fills exactly the expected output size). -/
theorem parse_hash_hex_failures (H : HashAlg) (url : Url)
    (segs : List (List Char)) (hexStr : List Char) (r : List (List Char))
    (htk : takeSegment segs = (some hexStr, r)) :
    (hexStr.length % 2 ≠ 0 →
      parse_hash H url segs = .error (.HexError .OddLength)) ∧
    (hexStr.length % 2 = 0 → hexStr.length / 2 ≠ H.outputSize →
      parse_hash H url segs = .error (.HexError .InvalidStringLength)) ∧
    (hexStr.length % 2 = 0 → hexStr.length / 2 = H.outputSize →
      (∃ c ∈ hexStr, hexVal c = none) →
      parse_hash H url segs = .error (.HexError .InvalidHexCharacter)) ∧
    (∀ e o, parse_hash H url segs ≠ .error (.UnexpectedHashLength e o)) := by
  refine ⟨?_, ?_, ?_, ?_⟩
  · intro hodd
    simp [parse_hash, htk, decode_to_slice, hodd]
  · intro heven hdiv
    simp [parse_hash, htk, decode_to_slice, heven, hdiv]
  · intro heven hdivOk hc
    have hdp := decodePairs_invalid_char heven hc
    simp [parse_hash, htk, decode_to_slice, heven, hdivOk, hdp]
  · intro e o
    simp only [parse_hash, htk]
    cases hdec : decode_to_slice hexStr H.outputSize with
    | error er => simp
    | ok v =>
      have hv := decode_to_slice_ok_length hdec
      simp [hv]

/-- Witness for C5 (amended): a 62-hex-character digest segment gives
the hex-decode error `InvalidStringLength` (and not an
`UnexpectedHashLength` error), and a 64-character segment containing
the non-hex character `z` gives `InvalidHexCharacter`. -/
theorem parse_hash_hex_failures_witness :
    parse_hash sha256Alg badHexUrl [List.replicate 62 'a'] =
      .error (.HexError .InvalidStringLength) ∧
    parse_hash sha256Alg badHexUrl ['z' :: List.replicate 63 'a'] =
      .error (.HexError .InvalidHexCharacter) ∧
    parse_hash sha256Alg badHexUrl [List.replicate 62 'a'] ≠
      .error (.UnexpectedHashLength 32 31) :=
  ⟨(parse_hash_hex_failures sha256Alg badHexUrl [List.replicate 62 'a']
        (List.replicate 62 'a') [] (by decide)).2.1 (by decide) (by decide),
    (parse_hash_hex_failures sha256Alg badHexUrl ['z' :: List.replicate 63 'a']
        ('z' :: List.replicate 63 'a') [] (by decide)).2.2.1 (by decide)
      (by decide) ⟨'z', by decide, by decide⟩,
    (parse_hash_hex_failures sha256Alg badHexUrl [List.replicate 62 'a']
        (List.replicate 62 'a') [] (by decide)).2.2.2 32 31⟩

/-- C1: round trip: for every Identifier (any algorithm/object-type
capability pair with well-formed nonempty names, a digest of the
declared output size, and byte values), parsing the canonical URL
produced by serializing it, with the same expected capabilities,
succeeds and returns an identical Identifier. -/
theorem round_trip (H : HashAlg) (O : ObjType) (g : GitOid)
    (hO : O.NAME ≠ []) (hH : H.NAME ≠ [])
    (hOc : ':' ∉ O.NAME) (hHc : ':' ∉ H.NAME)
    (hlen : g.value.length = H.outputSize) (hpos : 0 < H.outputSize)
    (hbytes : ∀ b ∈ g.value, b < 256) :
    gitOidUrlParse H O (GitOid.url H O g) = .ok g := by
  have hhexne : hexEncode g.value ≠ [] := by
    intro hnil
    have h1 : (hexEncode g.value).length = 0 := by rw [hnil]; rfl
    rw [hexEncode_length] at h1
    omega
  have hsplit :
      splitOnChar ':' (O.NAME ++ (':' :: (H.NAME ++ (':' :: hexEncode g.value)))) =
        [O.NAME, H.NAME, hexEncode g.value] := by
    rw [splitOnChar_append hOc, splitOnChar_append hHc,
      splitOnChar_not_mem (colon_not_mem_hexEncode hbytes)]
  have hdec : decode_to_slice (hexEncode g.value) H.outputSize = .ok g.value := by
    rw [← hlen]
    exact decode_to_slice_hexEncode hbytes
  have hpath : (GitOid.url H O g).path =
      O.NAME ++ (':' :: (H.NAME ++ (':' :: hexEncode g.value))) := rfl
  have h1 : validate_url_scheme (GitOid.url H O g) = .ok () := by
    simp [validate_url_scheme, GitOid.url]
  have h2 : validate_object_type O (GitOid.url H O g)
      (splitOnChar ':' (GitOid.url H O g).path) =
        .ok [H.NAME, hexEncode g.value] := by
    rw [hpath, hsplit]
    simp [validate_object_type, takeSegment_cons, someIfNotEmpty, hO]
  have h3 : validate_hash_algorithm H (GitOid.url H O g)
      [H.NAME, hexEncode g.value] = .ok [hexEncode g.value] := by
    simp [validate_hash_algorithm, takeSegment_cons, someIfNotEmpty, hH]
  have h4 : parse_hash H (GitOid.url H O g) [hexEncode g.value] =
      .ok g.value := by
    simp [parse_hash, takeSegment_cons, someIfNotEmpty, hhexne, hdec, hlen]
  simp only [gitOidUrlParse, h1, h2, h3, h4]

/-- Witness for C1 at a concrete identifier: the two-byte digest
`[171, 205]` serializes to `gitoid:blob:tiny:abcd` and parses back. -/
theorem round_trip_witness :
    gitOidUrlParse tinyAlg blobType
        (GitOid.url tinyAlg blobType ⟨[171, 205]⟩) = .ok ⟨[171, 205]⟩ :=
  round_trip tinyAlg blobType ⟨[171, 205]⟩ (by decide) (by decide)
    (by decide) (by decide) (by decide) (by decide) (by decide)

end OmniBor
